import Mathlib

/-!
Verification development for the gummi 2D engine core: the reference-counted
resource cache (`src/engine/internal/resourceMap.ts`) and the fixed-timestep
game loop (`src/engine/internal/loop.ts`).

The embedding is shallow: the module-level mutable state of each TypeScript
module becomes an explicit state structure, each exported function becomes a
Lean function from state to (result, state), and a thrown error becomes an
`Except.error` result.  Asynchronous fetch chains are modelled by an
environment `FetchEnv` giving the settled outcome of the fetch/decode/parse
chain for each path; the continuations attached in `loadDecodeParse` run when
the outstanding requests are settled at the `waitOnRequests` barrier, which
matches the single-threaded, cooperative scheduling model of the host.
-/

namespace Gummi

/-- Error values thrown by the engine (`src/helpers/error.ts`): `ResourceError`
and `LoopError`, each carrying its message. -/
inductive GummiError where
  | resourceError (msg : String)
  | loopError (msg : String)
deriving DecidableEq, Repr

/-- The `message` property of a thrown error. -/
def GummiError.message : GummiError → String
  | .resourceError m => m
  | .loopError m => m

/-- `MapEntry<T>` from `resourceMap.ts`: resource data (null while the load is
in flight) together with a reference count. -/
structure MapEntry (α : Type) where
  data : Option α
  refCount : Int
deriving DecidableEq, Repr

/-- The `MapEntry` constructor: `this._data = data; this._refCount = 1`. -/
def MapEntry.make {α : Type} (d : Option α) : MapEntry α :=
  { data := d, refCount := 1 }

/-- `decrementRefCount(): void { this._refCount--; }` — note that nothing in
`resourceMap.ts` ever calls this method. -/
def MapEntry.decrementRefCount {α : Type} (e : MapEntry α) : MapEntry α :=
  { e with refCount := e.refCount - 1 }

/-- `incrementRefCount(): void { this._refCount++; }` -/
def MapEntry.incrementRefCount {α : Type} (e : MapEntry α) : MapEntry α :=
  { e with refCount := e.refCount + 1 }

/-- `setData(data: T) { this._data = data; }` -/
def MapEntry.setData {α : Type} (e : MapEntry α) (d : α) : MapEntry α :=
  { e with data := some d }

/-- `getData(): T` — throws `ResourceError` when `_data` is null, otherwise
returns the data. -/
def MapEntry.getData {α : Type} (e : MapEntry α) : Except GummiError α :=
  match e.data with
  | none => .error (.resourceError "Resource data is null")
  | some d => .ok d

/-- `canRemove(): boolean { return this._refCount <= 0; }` -/
def MapEntry.canRemove {α : Type} (e : MapEntry α) : Bool :=
  decide (e.refCount ≤ 0)

/-- The module-level state of `resourceMap.ts`: the `_map` from paths to
entries and the `_outstandingRequests` array.  A pending request is
identified by the path whose fetch chain it runs; its settled outcome is
supplied by a `FetchEnv` at the barrier. -/
structure ResourceMapState (α : Type) where
  map : String → Option (MapEntry α)
  outstandingRequests : List String

/-- The initial module state: `_map = new Map()`, `_outstandingRequests = []`. -/
def ResourceMapState.init (α : Type) : ResourceMapState α :=
  { map := fun _ => none, outstandingRequests := [] }

/-- `Map.prototype.set`: replace or insert the binding for `k`. -/
def mapSet {α : Type} (m : String → Option (MapEntry α)) (k : String)
    (v : MapEntry α) : String → Option (MapEntry α) :=
  fun q => if q = k then some v else m q

/-- `Map.prototype.delete`: remove the binding for `k`. -/
def mapDelete {α : Type} (m : String → Option (MapEntry α)) (k : String) :
    String → Option (MapEntry α) :=
  fun q => if q = k then none else m q

/-- `hasResource(path)`: `_map.has(path)`. -/
def hasResource {α : Type} (s : ResourceMapState α) (path : String) : Bool :=
  (s.map path).isSome

/-- The message of the "not found" `ResourceError` thrown by several
operations. -/
def notFoundMsg (path : String) : String :=
  "Resource " ++ path ++ " not found in resource map"

/-- `getResource(path)`: throws when no entry exists; otherwise evaluates
`_map.get(path)?.getData()`.  The optional-chaining operator makes the
declared result nullable, so the embedding returns `Option α`; the `none`
branch corresponds to `?.` short-circuiting on a missing entry. -/
def getResource {α : Type} (s : ResourceMapState α) (path : String) :
    Except GummiError (Option α) :=
  if hasResource s path = false then
    .error (.resourceError (notFoundMsg path))
  else
    match s.map path with
    | none => .ok none
    | some e =>
      match e.getData with
      | .error er => .error er
      | .ok d => .ok (some d)

/-- `setResource(path, resource)`: throws when no entry exists; otherwise
`_map.get(path)?.setData(resource)`. -/
def setResource {α : Type} (s : ResourceMapState α) (path : String) (d : α) :
    Except GummiError Unit × ResourceMapState α :=
  if hasResource s path = false then
    (.error (.resourceError (notFoundMsg path)), s)
  else
    match s.map path with
    | none => (.ok (), s)
    | some e => (.ok (), { s with map := mapSet s.map path (e.setData d) })

/-- `requestLoad(path)`: `_map.set(path, new MapEntry(null))`. -/
def requestLoad {α : Type} (s : ResourceMapState α) (path : String) :
    ResourceMapState α :=
  { s with map := mapSet s.map path (MapEntry.make none) }

/-- `incrementRefCount(path)`: throws when no entry exists; otherwise
`_map.get(path)?.incrementRefCount()`. -/
def incrementRefCount {α : Type} (s : ResourceMapState α) (path : String) :
    Except GummiError Unit × ResourceMapState α :=
  if hasResource s path = false then
    (.error (.resourceError (notFoundMsg path)), s)
  else
    match s.map path with
    | none => (.ok (), s)
    | some e =>
      (.ok (), { s with map := mapSet s.map path e.incrementRefCount })

/-- `unloadResource(path)`: throws when no entry exists; re-checks the entry
(`if (!entry) throw`), deletes the binding when `entry.canRemove()`, and
returns `entry.canRemove()`.  The source never decrements the reference
count. -/
def unloadResource {α : Type} (s : ResourceMapState α) (path : String) :
    Except GummiError Bool × ResourceMapState α :=
  if hasResource s path = false then
    (.error (.resourceError (notFoundMsg path)), s)
  else
    match s.map path with
    | none => (.error (.resourceError (notFoundMsg path)), s)
    | some entry =>
      if entry.canRemove then
        (.ok entry.canRemove, { s with map := mapDelete s.map path })
      else
        (.ok entry.canRemove, s)

/-- `pushRequest(request)`: `_outstandingRequests.push(request)`. -/
def pushRequest {α : Type} (s : ResourceMapState α) (path : String) :
    ResourceMapState α :=
  { s with outstandingRequests := s.outstandingRequests ++ [path] }

/-- The settled outcome of the fetch/decode/parse chain for each path: the
parsed asset on success, or the stringified cause on failure. -/
def FetchEnv (α : Type) : Type := String → Except String α

/-- The message of the `ResourceError` produced by the `.catch` clause of the
chain in `loadDecodeParse`. -/
def loadFailMsg (path cause : String) : String :=
  "Error loading resource " ++ path ++ ": " ++ cause

/-- `loadDecodeParse(path, decode, parse)`: on a cache miss, registers the key
with `requestLoad`, starts the fetch chain, pushes it onto the outstanding
requests and returns it (modelled by the path identifying the new request);
on a hit, increments the reference count and returns null.  The deferred
effect of the chain itself is applied when the request is settled
(`resolveRequest`). -/
def loadDecodeParse {α : Type} (s : ResourceMapState α) (path : String) :
    Except GummiError (Option String) × ResourceMapState α :=
  if hasResource s path = false then
    (.ok (some path), pushRequest (requestLoad s path) path)
  else
    let r := incrementRefCount s path
    match r.1 with
    | .ok _ => (.ok none, r.2)
    | .error e => (.error e, r.2)

/-- Settling one request: the chain
`fetch(path).then(decode).then(parse).then(d => setResource(path, d)).catch(...)`
either stores the parsed data via `setResource`, or rejects with the
`ResourceError` built by the `.catch` clause (which also wraps an error
thrown by `setResource` itself). -/
def resolveRequest {α : Type} (env : FetchEnv α) (s : ResourceMapState α)
    (path : String) : Except GummiError Unit × ResourceMapState α :=
  match env path with
  | .error cause => (.error (.resourceError (loadFailMsg path cause)), s)
  | .ok d =>
    let r := setResource s path d
    match r.1 with
    | .ok _ => (.ok (), r.2)
    | .error e => (.error (.resourceError (loadFailMsg path e.message)), r.2)

/-- Settling every request in a list, in order: all chains run to completion
(continuations included), and the reported error — if any — is the first
rejection, which is what `Promise.all` surfaces. -/
def settleAll {α : Type} (env : FetchEnv α) (s : ResourceMapState α) :
    List String → Option GummiError × ResourceMapState α
  | [] => (none, s)
  | p :: ps =>
    let r1 := resolveRequest env s p
    let r2 := settleAll env r1.2 ps
    match r1.1 with
    | .ok _ => r2
    | .error e => (some e, r2.2)

/-- `waitOnRequests()`: `await Promise.all(_outstandingRequests)` then
`_outstandingRequests.length = 0`.  When some request rejects, the `await`
throws and the clearing line is skipped. -/
def waitOnRequests {α : Type} (env : FetchEnv α) (s : ResourceMapState α) :
    Except GummiError Unit × ResourceMapState α :=
  let r := settleAll env s s.outstandingRequests
  match r.1 with
  | some e => (.error e, r.2)
  | none => (.ok (), { r.2 with outstandingRequests := [] })

/-- The cache operations a caller (a typed resource module driven by a scene)
performs between barriers: `loadDecodeParse`, `unloadResource`, and the
`waitOnRequests` barrier itself. -/
inductive CacheOp where
  | load (path : String)
  | unload (path : String)
  | wait
deriving DecidableEq, Repr

/-- Running one cache operation for its state effect. -/
def execOp {α : Type} (env : FetchEnv α) (s : ResourceMapState α) :
    CacheOp → ResourceMapState α
  | .load p => (loadDecodeParse s p).2
  | .unload p => (unloadResource s p).2
  | .wait => (waitOnRequests env s).2

/-- Running a sequence of cache operations from a state. -/
def execTrace {α : Type} (env : FetchEnv α) (s : ResourceMapState α) :
    List CacheOp → ResourceMapState α
  | [] => s
  | op :: ops => execTrace env (execOp env s op) ops

/-- The externally observable calls a frame step makes, in order:
`requestAnimationFrame`, `scene.draw()`, and per drained update step
`updateInput()` then `scene.update()`. -/
inductive LoopEvent where
  | scheduleFrame
  | draw
  | updateInput
  | update
deriving DecidableEq, Repr

/-- `const UPDATES_PER_SECOND = 60;` -/
def UPDATES_PER_SECOND : ℚ := 60

/-- `const MILLISECONDS_PER_UPDATE = 1000 / UPDATES_PER_SECOND;` — the source
evaluates this in 64-bit binary floating point, where the quotient `1000/60`
rounds to the nearest representable value `4691249611844267 * 2 ^ (-48)`,
which is strictly greater than `50/3`.  The embedding uses that exact value
so that the drain counts match the program; the subsequent additions and
subtractions of the accumulator are modelled exactly. -/
def MILLISECONDS_PER_UPDATE : ℚ := 4691249611844267 / 281474976710656

/-- The module-level state of `loop.ts`: `_scene`, `_frameId`, `_running`,
`_previousTime` and `_lagTime`.  A scene is an opaque handle; its lifecycle
methods are recorded as events. -/
structure LoopState where
  scene : Option Nat
  frameId : Int
  running : Bool
  previousTime : ℚ
  lagTime : ℚ
deriving DecidableEq, Repr

/-- The `while (_lagTime >= MILLISECONDS_PER_UPDATE)` drain loop of
`loopStep`: each iteration calls `updateInput()` then `_scene.update()` and
subtracts one fixed step from the accumulator.  Returns the events emitted
and the final accumulator. -/
def drainLoop (lag : ℚ) : List LoopEvent × ℚ :=
  if h : MILLISECONDS_PER_UPDATE ≤ lag then
    let r := drainLoop (lag - MILLISECONDS_PER_UPDATE)
    (LoopEvent.updateInput :: LoopEvent.update :: r.1, r.2)
  else
    ([], lag)
termination_by (⌊lag / MILLISECONDS_PER_UPDATE⌋).toNat
decreasing_by
  have hpos : (0 : ℚ) < MILLISECONDS_PER_UPDATE := by
    norm_num [MILLISECONDS_PER_UPDATE]
  have h1 : (1 : ℚ) ≤ lag / MILLISECONDS_PER_UPDATE :=
    (one_le_div hpos).mpr h
  have hfl : (1 : ℤ) ≤ ⌊lag / MILLISECONDS_PER_UPDATE⌋ := by
    exact_mod_cast Int.le_floor.mpr (by exact_mod_cast h1)
  have hsub : (lag - MILLISECONDS_PER_UPDATE) / MILLISECONDS_PER_UPDATE
      = lag / MILLISECONDS_PER_UPDATE - 1 := by
    field_simp
  have : ⌊(lag - MILLISECONDS_PER_UPDATE) / MILLISECONDS_PER_UPDATE⌋
      = ⌊lag / MILLISECONDS_PER_UPDATE⌋ - 1 := by
    rw [hsub]
    exact_mod_cast Int.floor_sub_int (lag / MILLISECONDS_PER_UPDATE) 1
  omega

/-- `loopStep()`: throws when `_scene` is unset; when `_running`, reschedules
the next frame (`fid` models the handle `requestAnimationFrame` returns),
draws once, accumulates the elapsed wall time and drains the accumulator in
fixed steps.  Returns the result, the new state and the events emitted. -/
def loopStep (ls : LoopState) (now : ℚ) (fid : Int) :
    Except GummiError Unit × LoopState × List LoopEvent :=
  match ls.scene with
  | none => (.error (.loopError "Scene not initialized"), ls, [])
  | some _ =>
    if ls.running then
      let elapsedTime := now - ls.previousTime
      let r := drainLoop (ls.lagTime + elapsedTime)
      (.ok (),
        { ls with frameId := fid, previousTime := now, lagTime := r.2 },
        LoopEvent.scheduleFrame :: LoopEvent.draw :: r.1)
    else
      (.ok (), ls, [])

/-- Running the loop over a list of frame-callback timestamps: each callback
invokes `loopStep` with the host clock reading at that callback. -/
def runLoop (ls : LoopState) : List ℚ →
    Except GummiError Unit × LoopState × List LoopEvent
  | [] => (.ok (), ls, [])
  | t :: ts =>
    match loopStep ls t 0 with
    | (.error e, ls1, evs) => (.error e, ls1, evs)
    | (.ok _, ls1, evs) =>
      let r := runLoop ls1 ts
      (r.1, r.2.1, evs ++ r.2.2)

/-- `startLoop(scene)`: throws `LoopError` when already running; otherwise
attaches the scene, runs `scene.load()` (whose effect on the cache is the
caller-supplied `sceneLoad`), awaits the `waitOnRequests` barrier — a barrier
failure propagates with the scene attached but the loop not running — then
initializes the timing state, sets `_running` and schedules the first
frame. -/
def startLoop {α : Type} (ls : LoopState) (scene : Nat)
    (rs : ResourceMapState α) (sceneLoad : ResourceMapState α → ResourceMapState α)
    (env : FetchEnv α) (now : ℚ) (fid : Int) :
    Except GummiError Unit × LoopState × ResourceMapState α :=
  if ls.running then
    (.error (.loopError "Scene already running"), ls, rs)
  else
    let ls1 := { ls with scene := some scene }
    let rs1 := sceneLoad rs
    match waitOnRequests env rs1 with
    | (.error e, rs2) => (.error e, ls1, rs2)
    | (.ok _, rs2) =>
      (.ok (),
        { scene := some scene, frameId := fid, running := true,
          previousTime := now, lagTime := 0 },
        rs2)

/-- `stopLoop()`: clears `_running` and cancels the scheduled frame (the
cancellation itself is a host call with no effect on this state). -/
def stopLoop (ls : LoopState) : LoopState :=
  { ls with running := false }

/-- `cleanupLoop()`: throws when `_scene` is unset; otherwise stops the loop,
runs `scene.unload()` and detaches the scene — the running flag is cleared
before the scene is set to null. -/
def cleanupLoop (ls : LoopState) : Except GummiError Unit × LoopState :=
  match ls.scene with
  | none => (.error (.loopError "Scene not initialized"), ls)
  | some _ =>
    let ls1 := stopLoop ls
    (.ok (), { ls1 with scene := none })

/-- The loop-state invariant of the spec: whenever the running flag is set, a
scene handle is attached. -/
def LoopInv (ls : LoopState) : Prop :=
  ls.running = true → ls.scene ≠ none

/-- The event list produced by `n` iterations of the drain loop: each
iteration polls input and then updates. -/
def updatePairs : Nat → List LoopEvent
  | 0 => []
  | n + 1 => LoopEvent.updateInput :: LoopEvent.update :: updatePairs n

/-- The paths passed to `loadDecodeParse` in a trace of cache operations. -/
def loadedPaths : List CacheOp → List String
  | [] => []
  | .load p :: ops => p :: loadedPaths ops
  | .unload _ :: ops => loadedPaths ops
  | .wait :: ops => loadedPaths ops

/-- The invariants of cache states reachable by a trace whose loaded paths
are contained in `L`: every outstanding request is for a loaded path; every
entry whose data is still absent has its request outstanding; every entry
holds at least one reference; every loaded path has an entry. -/
def GoodState {α : Type} (s : ResourceMapState α) (L : List String) : Prop :=
  (∀ p, p ∈ s.outstandingRequests → p ∈ L) ∧
  (∀ p e, s.map p = some e → e.data = none → p ∈ s.outstandingRequests) ∧
  (∀ p e, s.map p = some e → 1 ≤ e.refCount) ∧
  (∀ p, p ∈ L → hasResource s p = true)

/-! ### Resource-cache lemmas -/

theorem setResource_requests {α : Type} (s : ResourceMapState α) (p : String)
    (d : α) :
    (setResource s p d).2.outstandingRequests = s.outstandingRequests := by
  simp only [setResource]
  split
  · rfl
  · split <;> rfl

theorem resolveRequest_requests {α : Type} (env : FetchEnv α)
    (s : ResourceMapState α) (p : String) :
    (resolveRequest env s p).2.outstandingRequests = s.outstandingRequests := by
  simp only [resolveRequest]
  split
  · rfl
  · split <;> simp [setResource_requests]

theorem settleAll_requests {α : Type} (env : FetchEnv α) :
    ∀ (ps : List String) (s : ResourceMapState α),
      (settleAll env s ps).2.outstandingRequests = s.outstandingRequests := by
  intro ps
  induction ps with
  | nil => intro s; rfl
  | cons p ps ih =>
    intro s
    simp only [settleAll]
    split
    · rw [ih, resolveRequest_requests]
    · show (settleAll env (resolveRequest env s p).2 ps).2.outstandingRequests
        = s.outstandingRequests
      rw [ih, resolveRequest_requests]

theorem setResource_map_isSome {α : Type} (s : ResourceMapState α) (p : String)
    (d : α) (q : String) :
    ((setResource s p d).2.map q).isSome = (s.map q).isSome := by
  simp only [setResource]
  split
  · rfl
  · split
    · rfl
    · rename_i e heq
      simp only [mapSet]
      by_cases hqp : q = p
      · subst hqp; simp [heq]
      · simp [hqp]

theorem setResource_entry {α : Type} (s : ResourceMapState α) (p : String)
    (d : α) (q : String) (e : MapEntry α) (h : s.map q = some e) :
    ∃ e2, (setResource s p d).2.map q = some e2 ∧ e2.refCount = e.refCount ∧
      (e2.data = e.data ∨ ∃ x, e2.data = some x) := by
  simp only [setResource]
  split
  · exact ⟨e, h, rfl, Or.inl rfl⟩
  · split
    · exact ⟨e, h, rfl, Or.inl rfl⟩
    · rename_i e0 heq
      simp only [mapSet]
      by_cases hqp : q = p
      · subst hqp
        refine ⟨e0.setData d, by simp, ?_, Or.inr ⟨d, rfl⟩⟩
        have : e0 = e := by rw [h] at heq; exact (Option.some.inj heq).symm
        subst this; rfl
      · exact ⟨e, by simp [hqp, h], rfl, Or.inl rfl⟩

theorem setResource_ok_data {α : Type} (s : ResourceMapState α) (p : String)
    (d : α) (h : (setResource s p d).1 = .ok ()) :
    ∃ e, (setResource s p d).2.map p = some e ∧ e.data = some d := by
  revert h
  simp only [setResource]
  split
  · intro h; exact absurd h (by simp)
  · rename_i hhas
    split
    · rename_i hnone
      intro _
      exact absurd (by simp [hasResource, hnone] : hasResource s p = false) hhas
    · rename_i e0 heq
      intro _
      exact ⟨e0.setData d, by simp [mapSet], rfl⟩

theorem resolveRequest_ok_data {α : Type} (env : FetchEnv α)
    (s : ResourceMapState α) (p : String)
    (h : (resolveRequest env s p).1 = .ok ()) :
    ∃ e, (resolveRequest env s p).2.map p = some e ∧ e.data.isSome = true := by
  revert h
  simp only [resolveRequest]
  split
  · intro h; exact absurd h (by simp)
  · rename_i d henv
    split
    · rename_i u heq
      intro _
      obtain ⟨e, he, hd⟩ := setResource_ok_data s p d (by cases u; exact heq)
      exact ⟨e, he, by simp [hd]⟩
    · intro h; exact absurd h (by simp)

theorem resolveRequest_error_shape {α : Type} (env : FetchEnv α)
    (s : ResourceMapState α) (p : String) (e : GummiError)
    (h : (resolveRequest env s p).1 = .error e) :
    ∃ m, e = .resourceError (loadFailMsg p m) := by
  revert h
  simp only [resolveRequest]
  split
  · rename_i cause henv
    intro h
    exact ⟨cause, (Except.error.inj h).symm⟩
  · rename_i d henv
    split
    · intro h; exact absurd h (by simp)
    · rename_i er heq
      intro h
      exact ⟨er.message, (Except.error.inj h).symm⟩

theorem resolveRequest_map_isSome {α : Type} (env : FetchEnv α)
    (s : ResourceMapState α) (p : String) (q : String) :
    ((resolveRequest env s p).2.map q).isSome = (s.map q).isSome := by
  simp only [resolveRequest]
  split
  · rfl
  · split <;> exact setResource_map_isSome ..

theorem resolveRequest_entry {α : Type} (env : FetchEnv α)
    (s : ResourceMapState α) (p : String) (q : String) (e : MapEntry α)
    (h : s.map q = some e) :
    ∃ e2, (resolveRequest env s p).2.map q = some e2 ∧
      e2.refCount = e.refCount ∧ (e2.data = e.data ∨ ∃ x, e2.data = some x) := by
  simp only [resolveRequest]
  split
  · exact ⟨e, h, rfl, Or.inl rfl⟩
  · split <;> exact setResource_entry _ _ _ _ _ h

theorem settleAll_map_isSome {α : Type} (env : FetchEnv α) :
    ∀ (ps : List String) (s : ResourceMapState α) (q : String),
      ((settleAll env s ps).2.map q).isSome = (s.map q).isSome := by
  intro ps
  induction ps with
  | nil => intro s q; rfl
  | cons p ps ih =>
    intro s q
    simp only [settleAll]
    split
    · rw [ih, resolveRequest_map_isSome]
    · show ((settleAll env (resolveRequest env s p).2 ps).2.map q).isSome
        = (s.map q).isSome
      rw [ih, resolveRequest_map_isSome]

theorem settleAll_entry {α : Type} (env : FetchEnv α) :
    ∀ (ps : List String) (s : ResourceMapState α) (q : String) (e : MapEntry α),
      s.map q = some e →
      ∃ e2, (settleAll env s ps).2.map q = some e2 ∧
        e2.refCount = e.refCount ∧
        (e2.data = e.data ∨ ∃ x, e2.data = some x) := by
  intro ps
  induction ps with
  | nil => intro s q e h; exact ⟨e, h, rfl, Or.inl rfl⟩
  | cons p ps ih =>
    intro s q e h
    obtain ⟨e1, he1, hrc1, hd1⟩ := resolveRequest_entry env s p q e h
    obtain ⟨e2, he2, hrc2, hd2⟩ := ih (resolveRequest env s p).2 q e1 he1
    have hstep : ∃ e2, (settleAll env (resolveRequest env s p).2 ps).2.map q
        = some e2 ∧ e2.refCount = e.refCount ∧
        (e2.data = e.data ∨ ∃ x, e2.data = some x) := by
      refine ⟨e2, he2, by rw [hrc2, hrc1], ?_⟩
      rcases hd2 with h2 | ⟨x, hx⟩
      · rcases hd1 with h1 | ⟨y, hy⟩
        · exact Or.inl (by rw [h2, h1])
        · exact Or.inr ⟨y, by rw [h2, hy]⟩
      · exact Or.inr ⟨x, hx⟩
    simp only [settleAll]
    split
    · exact hstep
    · exact hstep

theorem settleAll_ok_resolved {α : Type} (env : FetchEnv α) :
    ∀ (ps : List String) (s : ResourceMapState α),
      (settleAll env s ps).1 = none →
      ∀ p, p ∈ ps →
        ∃ e, (settleAll env s ps).2.map p = some e ∧ e.data.isSome = true := by
  intro ps
  induction ps with
  | nil => intro s _ p hp; exact absurd hp (by simp)
  | cons q ps ih =>
    intro s hok p hp
    revert hok
    simp only [settleAll]
    split
    · rename_i u heq
      intro hok
      rcases List.mem_cons.mp hp with hpq | hps
      · subst hpq
        obtain ⟨e, he, hd⟩ :=
          resolveRequest_ok_data env s p (by cases u; exact heq)
        obtain ⟨e2, he2, _, hd2⟩ :=
          settleAll_entry env ps (resolveRequest env s p).2 p e he
        refine ⟨e2, he2, ?_⟩
        rcases hd2 with h2 | ⟨x, hx⟩
        · rw [h2]; exact hd
        · simp [hx]
      · exact ih (resolveRequest env s q).2 hok p hps
    · intro hok
      exact absurd hok (by simp)

theorem settleAll_error_shape {α : Type} (env : FetchEnv α) :
    ∀ (ps : List String) (s : ResourceMapState α) (e : GummiError),
      (settleAll env s ps).1 = some e →
      ∃ p m, p ∈ ps ∧ e = .resourceError (loadFailMsg p m) := by
  intro ps
  induction ps with
  | nil => intro s e h; exact absurd h (by simp [settleAll])
  | cons q ps ih =>
    intro s e h
    revert h
    simp only [settleAll]
    split
    · intro h
      obtain ⟨p, m, hp, hm⟩ := ih (resolveRequest env s q).2 e h
      exact ⟨p, m, List.mem_cons_of_mem _ hp, hm⟩
    · rename_i er heq
      intro h
      have he : er = e := by
        simpa using h
      rw [he] at heq
      obtain ⟨m, hm⟩ := resolveRequest_error_shape env s q e heq
      exact ⟨q, m, List.mem_cons_self _ _, hm⟩

theorem goodState_init {α : Type} : GoodState (ResourceMapState.init α) [] := by
  refine ⟨?_, ?_, ?_, ?_⟩
  · intro p hp; exact absurd hp (by simp [ResourceMapState.init])
  · intro p e hp; exact absurd hp (by simp [ResourceMapState.init])
  · intro p e hp; exact absurd hp (by simp [ResourceMapState.init])
  · intro p hp; exact absurd hp (by simp)

theorem goodState_load {α : Type} (s : ResourceMapState α) (L : List String)
    (p : String) (hg : GoodState s L) :
    GoodState (loadDecodeParse s p).2 (L ++ [p]) := by
  obtain ⟨h1, h2, h3, h4⟩ := hg
  by_cases hhas : hasResource s p = false
  · simp only [loadDecodeParse]
    rw [if_pos hhas]
    simp only [pushRequest, requestLoad]
    refine ⟨?_, ?_, ?_, ?_⟩
    · intro q hq
      simp only [List.mem_append] at hq ⊢
      rcases hq with hq | hq
      · exact Or.inl (h1 q hq)
      · exact Or.inr hq
    · intro q e hq hd
      simp only [mapSet] at hq
      by_cases hqp : q = p
      · subst hqp; simp
      · rw [if_neg hqp] at hq
        exact List.mem_append_left _ (h2 q e hq hd)
    · intro q e hq
      simp only [mapSet] at hq
      by_cases hqp : q = p
      · rw [if_pos hqp] at hq
        cases Option.some.inj hq
        simp [MapEntry.make]
      · rw [if_neg hqp] at hq
        exact h3 q e hq
    · intro q hq
      simp only [hasResource, mapSet]
      by_cases hqp : q = p
      · simp [hqp]
      · rw [if_neg hqp]
        simp only [List.mem_append] at hq
        rcases hq with hq | hq
        · exact h4 q hq
        · simp only [List.mem_singleton] at hq
          exact absurd hq hqp
  · simp only [loadDecodeParse]
    rw [if_neg hhas]
    have hinc : GoodState (incrementRefCount s p).2 (L ++ [p]) := by
      simp only [incrementRefCount]
      split
      · rename_i hfalse
        exact absurd hfalse hhas
      · split
        · refine ⟨fun q hq => List.mem_append_left _ (h1 q hq), h2, h3, ?_⟩
          intro q hq
          simp only [List.mem_append, List.mem_singleton] at hq
          rcases hq with hq | hq
          · exact h4 q hq
          · subst hq
            simpa using hhas
        · rename_i e0 heq
          refine ⟨?_, ?_, ?_, ?_⟩
          · intro q hq
            exact List.mem_append_left _ (h1 q hq)
          · intro q e hq hd
            simp only [mapSet] at hq
            by_cases hqp : q = p
            · rw [if_pos hqp] at hq
              cases Option.some.inj hq
              subst hqp
              exact h2 q e0 heq (by simpa [MapEntry.incrementRefCount] using hd)
            · rw [if_neg hqp] at hq
              exact h2 q e hq hd
          · intro q e hq
            simp only [mapSet] at hq
            by_cases hqp : q = p
            · rw [if_pos hqp] at hq
              cases Option.some.inj hq
              have := h3 q e0 (by rw [← hqp] at heq; exact heq)
              simp only [MapEntry.incrementRefCount]
              omega
            · rw [if_neg hqp] at hq
              exact h3 q e hq
          · intro q hq
            simp only [hasResource, mapSet]
            by_cases hqp : q = p
            · simp [hqp]
            · rw [if_neg hqp]
              simp only [List.mem_append, List.mem_singleton] at hq
              rcases hq with hq | hq
              · exact h4 q hq
              · exact absurd hq hqp
    split
    · exact hinc
    · exact hinc

theorem goodState_unload {α : Type} (s : ResourceMapState α) (L : List String)
    (p : String) (hg : GoodState s L) :
    GoodState (unloadResource s p).2 L := by
  obtain ⟨h1, h2, h3, h4⟩ := hg
  simp only [unloadResource]
  split
  · exact ⟨h1, h2, h3, h4⟩
  · split
    · exact ⟨h1, h2, h3, h4⟩
    · rename_i entry heq
      split
      · rename_i hrem
        exfalso
        have := h3 p entry heq
        simp only [MapEntry.canRemove, decide_eq_true_eq] at hrem
        omega
      · exact ⟨h1, h2, h3, h4⟩

theorem goodState_wait {α : Type} (env : FetchEnv α) (s : ResourceMapState α)
    (L : List String) (hg : GoodState s L) :
    GoodState (waitOnRequests env s).2 L := by
  obtain ⟨h1, h2, h3, h4⟩ := hg
  simp only [waitOnRequests]
  split
  · rename_i e heq
    refine ⟨?_, ?_, ?_, ?_⟩
    · intro q hq
      simp only at hq
      rw [settleAll_requests] at hq
      exact h1 q hq
    · intro q e2 hq hd
      simp only at hq
      have hsome : (s.map q).isSome := by
        rw [← settleAll_map_isSome env s.outstandingRequests s q]
        simp [hq]
      obtain ⟨e0, he0⟩ := Option.isSome_iff_exists.mp hsome
      obtain ⟨e2b, he2b, hrc, hdd⟩ :=
        settleAll_entry env s.outstandingRequests s q e0 he0
      have hee : e2b = e2 := by rw [hq] at he2b; exact (Option.some.inj he2b).symm
      subst hee
      simp only
      rw [settleAll_requests]
      rcases hdd with hdd | ⟨x, hx⟩
      · exact h2 q e0 he0 (by rw [← hdd]; exact hd)
      · rw [hx] at hd; cases hd
    · intro q e2 hq
      simp only at hq
      have hsome : (s.map q).isSome := by
        rw [← settleAll_map_isSome env s.outstandingRequests s q]
        simp [hq]
      obtain ⟨e0, he0⟩ := Option.isSome_iff_exists.mp hsome
      obtain ⟨e2b, he2b, hrc, _⟩ :=
        settleAll_entry env s.outstandingRequests s q e0 he0
      have hee : e2b = e2 := by rw [hq] at he2b; exact (Option.some.inj he2b).symm
      subst hee
      rw [hrc]
      exact h3 q e0 he0
    · intro q hq
      have := h4 q hq
      simp only [hasResource] at this ⊢
      rw [settleAll_map_isSome]
      exact this
  · rename_i heq
    refine ⟨?_, ?_, ?_, ?_⟩
    · intro q hq
      exact absurd hq (by simp)
    · intro q e2 hq hd
      exfalso
      simp only at hq
      have hsome : (s.map q).isSome := by
        rw [← settleAll_map_isSome env s.outstandingRequests s q]
        simp [hq]
      obtain ⟨e0, he0⟩ := Option.isSome_iff_exists.mp hsome
      cases hd0 : e0.data with
      | none =>
        have hreq := h2 q e0 he0 hd0
        obtain ⟨e3, he3, hd3⟩ :=
          settleAll_ok_resolved env s.outstandingRequests s heq q hreq
        have hee : e3 = e2 := by rw [hq] at he3; exact (Option.some.inj he3).symm
        subst hee
        rw [hd] at hd3
        cases hd3
      | some x =>
        obtain ⟨e2b, he2b, _, hdd⟩ :=
          settleAll_entry env s.outstandingRequests s q e0 he0
        have hee : e2b = e2 := by rw [hq] at he2b; exact (Option.some.inj he2b).symm
        subst hee
        rcases hdd with hdd | ⟨y, hy⟩
        · rw [hd0] at hdd; rw [hdd] at hd; cases hd
        · rw [hy] at hd; cases hd
    · intro q e2 hq
      simp only at hq
      have hsome : (s.map q).isSome := by
        rw [← settleAll_map_isSome env s.outstandingRequests s q]
        simp [hq]
      obtain ⟨e0, he0⟩ := Option.isSome_iff_exists.mp hsome
      obtain ⟨e2b, he2b, hrc, _⟩ :=
        settleAll_entry env s.outstandingRequests s q e0 he0
      have hee : e2b = e2 := by rw [hq] at he2b; exact (Option.some.inj he2b).symm
      subst hee
      rw [hrc]
      exact h3 q e0 he0
    · intro q hq
      have := h4 q hq
      simp only [hasResource] at this ⊢
      rw [settleAll_map_isSome]
      exact this

theorem execTrace_good {α : Type} (env : FetchEnv α) :
    ∀ (ops : List CacheOp) (s : ResourceMapState α) (L : List String),
      GoodState s L →
      GoodState (execTrace env s ops) (L ++ loadedPaths ops) := by
  intro ops
  induction ops with
  | nil => intro s L hg; simpa [execTrace, loadedPaths] using hg
  | cons op ops ih =>
    intro s L hg
    cases op with
    | load p =>
      have step := goodState_load s L p hg
      have := ih (loadDecodeParse s p).2 (L ++ [p]) step
      simpa [execTrace, execOp, loadedPaths, List.append_assoc] using this
    | unload p =>
      have step := goodState_unload s L p hg
      have := ih (unloadResource s p).2 L step
      simpa [execTrace, execOp, loadedPaths] using this
    | wait =>
      have step := goodState_wait env s L hg
      have := ih (waitOnRequests env s).2 L step
      simpa [execTrace, execOp, loadedPaths] using this

theorem mem_loadedPaths (p : String) :
    ∀ (ops : List CacheOp), p ∈ loadedPaths ops ↔ CacheOp.load p ∈ ops := by
  intro ops
  induction ops with
  | nil => simp [loadedPaths]
  | cons op ops ih =>
    cases op with
    | load q => simp [loadedPaths, ih]
    | unload q => simp [loadedPaths, ih]
    | wait => simp [loadedPaths, ih]

theorem incrementRefCount_eval {α : Type} (s : ResourceMapState α) (p : String)
    (e : MapEntry α) (h : s.map p = some e) :
    incrementRefCount s p
      = (.ok (), { s with map := mapSet s.map p e.incrementRefCount }) := by
  simp only [incrementRefCount]
  rw [if_neg (by simp [hasResource, h]), h]

theorem loadDecodeParse_miss {α : Type} (s : ResourceMapState α) (p : String)
    (h : hasResource s p = false) :
    loadDecodeParse s p = (.ok (some p), pushRequest (requestLoad s p) p) := by
  simp only [loadDecodeParse]
  rw [if_pos h]

theorem loadDecodeParse_hit {α : Type} (s : ResourceMapState α) (p : String)
    (e : MapEntry α) (h : s.map p = some e) :
    loadDecodeParse s p
      = (.ok none, { s with map := mapSet s.map p e.incrementRefCount }) := by
  simp only [loadDecodeParse]
  rw [if_neg (by simp [hasResource, h]), incrementRefCount_eval s p e h]

/-- **C5**: for a key `k` absent from the resource map, two `loadDecodeParse`
calls before either resolves issue exactly one underlying fetch and leave the
entry with `refCount = 2`: the first call registers the key (refCount 1, data
absent), appends one request to the outstanding set and returns the pending
operation; the second only increments the reference count and returns no
pending operation. -/
theorem doubleLoad_single_fetch {α : Type} (s : ResourceMapState α)
    (k : String) (h : hasResource s k = false) :
    (loadDecodeParse s k).1 = .ok (some k) ∧
    (loadDecodeParse (loadDecodeParse s k).2 k).1 = .ok none ∧
    (loadDecodeParse (loadDecodeParse s k).2 k).2.map k
      = some { data := none, refCount := 2 } ∧
    (loadDecodeParse (loadDecodeParse s k).2 k).2.outstandingRequests
      = s.outstandingRequests ++ [k] := by
  have h1 := loadDecodeParse_miss s k h
  have hm1 : (loadDecodeParse s k).2.map k = some (MapEntry.make none) := by
    rw [h1]
    simp [pushRequest, requestLoad, mapSet]
  have h2 := loadDecodeParse_hit (loadDecodeParse s k).2 k (MapEntry.make none) hm1
  refine ⟨by rw [h1], by rw [h2], ?_, ?_⟩
  · rw [h2]
    simp [mapSet, MapEntry.make, MapEntry.incrementRefCount]
  · rw [h2, h1]
    simp [pushRequest, requestLoad]

/-- Witness for C5 at the empty cache and the key `"a"`. -/
theorem doubleLoad_single_fetch_witness :
    hasResource (ResourceMapState.init Nat) "a" = false ∧
    ((loadDecodeParse (ResourceMapState.init Nat) "a").1 = .ok (some "a") ∧
     (loadDecodeParse
        (loadDecodeParse (ResourceMapState.init Nat) "a").2 "a").1 = .ok none ∧
     (loadDecodeParse
        (loadDecodeParse (ResourceMapState.init Nat) "a").2 "a").2.map "a"
       = some { data := none, refCount := 2 } ∧
     (loadDecodeParse
        (loadDecodeParse (ResourceMapState.init Nat) "a").2
        "a").2.outstandingRequests
       = (ResourceMapState.init Nat).outstandingRequests ++ ["a"]) :=
  ⟨rfl, doubleLoad_single_fetch (ResourceMapState.init Nat) "a" rfl⟩

/-- **C1** (evaluation at the failing input): `unloadResource` never calls
`decrementRefCount`, so after one `loadDecodeParse "k"` on an empty cache a
single `unloadResource "k"` returns `false` and leaves the entry in the map
with `refCount = 1`, where the specification requires the count to drop to 0,
the entry to be removed and `true` to be returned. -/
theorem unload_no_decrement_eval :
    (unloadResource ((loadDecodeParse (ResourceMapState.init Nat) "k").2)
        "k").1 = .ok false ∧
    (unloadResource ((loadDecodeParse (ResourceMapState.init Nat) "k").2)
        "k").2.map "k" = some { data := none, refCount := 1 } := by
  constructor <;> rfl

/-- **C2** (counterexample): a `waitOnRequests` call that completes with a
failure does not empty the outstanding-request set — the clearing line is
skipped when the `await` throws.  Here the single request for `"a"` fails,
`waitOnRequests` rejects, and the set still contains that request. -/
theorem waitRequests_failure_keeps_set :
    (waitOnRequests (fun _ => Except.error "boom")
        ((loadDecodeParse (ResourceMapState.init Nat) "a").2)).1
      = .error (.resourceError (loadFailMsg "a" "boom")) ∧
    (waitOnRequests (fun _ => Except.error "boom")
        ((loadDecodeParse (ResourceMapState.init Nat) "a").2)).2.outstandingRequests
      = ["a"] := by
  constructor <;> rfl

/-- **C2** (amended): `waitOnRequests` suspends until the outstanding
operations settle; when all of them resolve it empties the set, but when any
of them fails the failure surfaces to the caller and the set is left
unchanged (not emptied). -/
theorem waitRequests_clear_amended {α : Type} (env : FetchEnv α)
    (s : ResourceMapState α) :
    ((waitOnRequests env s).1 = .ok () →
      (waitOnRequests env s).2.outstandingRequests = []) ∧
    (∀ e, (waitOnRequests env s).1 = .error e →
      (waitOnRequests env s).2.outstandingRequests = s.outstandingRequests) := by
  rcases hsettle : (settleAll env s s.outstandingRequests).1 with _ | er
  · constructor
    · intro _
      simp only [waitOnRequests, hsettle]
    · intro e he
      simp only [waitOnRequests, hsettle] at he
      cases he
  · constructor
    · intro h
      simp only [waitOnRequests, hsettle] at h
      cases h
    · intro e _
      simp only [waitOnRequests, hsettle]
      exact settleAll_requests env s.outstandingRequests s

/-- Witness for the amended C2: with a succeeding environment the barrier
resolves and the set is cleared. -/
theorem waitRequests_clear_amended_witness :
    (waitOnRequests (fun _ => Except.ok (1 : Nat))
        ((loadDecodeParse (ResourceMapState.init Nat) "a").2)).2.outstandingRequests
      = [] :=
  (waitRequests_clear_amended (fun _ => Except.ok (1 : Nat))
      ((loadDecodeParse (ResourceMapState.init Nat) "a").2)).1 rfl

/-- **C6**: starting from the initial cache, after any trace of
`loadDecodeParse` / `unloadResource` / `waitOnRequests` operations, if a
final `waitOnRequests` resolves then every key ever passed to
`loadDecodeParse` has an entry with non-absent data; and if it rejects, the
error is a `ResourceError` naming a loaded key whose chain failed. -/
theorem barrier_completeness {α : Type} (env : FetchEnv α)
    (ops : List CacheOp) :
    ((waitOnRequests env (execTrace env (ResourceMapState.init α) ops)).1
        = .ok () →
      ∀ p, CacheOp.load p ∈ ops →
        ∃ e, (waitOnRequests env
            (execTrace env (ResourceMapState.init α) ops)).2.map p = some e ∧
          e.data.isSome = true) ∧
    (∀ er, (waitOnRequests env
        (execTrace env (ResourceMapState.init α) ops)).1 = .error er →
      ∃ p m, CacheOp.load p ∈ ops ∧
        er = .resourceError (loadFailMsg p m)) := by
  have hg : GoodState (execTrace env (ResourceMapState.init α) ops)
      (loadedPaths ops) := by
    simpa using execTrace_good env ops (ResourceMapState.init α) [] goodState_init
  obtain ⟨g1, g2, g3, g4⟩ := hg
  rcases hsettle : (settleAll env (execTrace env (ResourceMapState.init α) ops)
      (execTrace env (ResourceMapState.init α) ops).outstandingRequests).1
    with _ | er0
  · constructor
    · intro _ p hp
      have hload : p ∈ loadedPaths ops := (mem_loadedPaths p ops).mpr hp
      have hhas := g4 p hload
      simp only [hasResource] at hhas
      obtain ⟨e0, he0⟩ := Option.isSome_iff_exists.mp hhas
      simp only [waitOnRequests, hsettle]
      cases hd0 : e0.data with
      | none =>
        have hreq := g2 p e0 he0 hd0
        obtain ⟨e3, he3, hd3⟩ := settleAll_ok_resolved env
          (execTrace env (ResourceMapState.init α) ops).outstandingRequests
          (execTrace env (ResourceMapState.init α) ops) hsettle p hreq
        exact ⟨e3, he3, hd3⟩
      | some x =>
        obtain ⟨e2, he2, _, hdd⟩ := settleAll_entry env
          (execTrace env (ResourceMapState.init α) ops).outstandingRequests
          (execTrace env (ResourceMapState.init α) ops) p e0 he0
        refine ⟨e2, he2, ?_⟩
        rcases hdd with hdd | ⟨y, hy⟩
        · rw [hdd, hd0]; rfl
        · rw [hy]; rfl
    · intro er her
      simp only [waitOnRequests, hsettle] at her
      cases her
  · constructor
    · intro h
      simp only [waitOnRequests, hsettle] at h
      cases h
    · intro er her
      simp only [waitOnRequests, hsettle] at her
      have heq : er0 = er := Except.error.inj her
      subst heq
      obtain ⟨p, m, hp, hm⟩ := settleAll_error_shape env
        (execTrace env (ResourceMapState.init α) ops).outstandingRequests
        (execTrace env (ResourceMapState.init α) ops) er0 hsettle
      exact ⟨p, m, (mem_loadedPaths p ops).mp (g1 p hp), hm⟩

/-- Witness for C6: one successful load of `"a"`, then the barrier resolves
and the entry for `"a"` holds data. -/
theorem barrier_completeness_witness :
    ∃ e, (waitOnRequests (fun _ => Except.ok (1 : Nat))
        (execTrace (fun _ => Except.ok (1 : Nat)) (ResourceMapState.init Nat)
          [CacheOp.load "a"])).2.map "a" = some e ∧
      e.data.isSome = true :=
  (barrier_completeness (fun _ => Except.ok (1 : Nat)) [CacheOp.load "a"]).1
    rfl "a" (by simp)

/-- **C10**: `getResource` never returns a null payload despite its nullable
declared type: for every state and path it either throws — when no entry
exists, or when the entry's data is still absent — or returns the stored
asset.  The embedding of `getResource` is a pure reader of the state, as the
source performs no writes. -/
theorem getResource_trichotomy {α : Type} (s : ResourceMapState α)
    (p : String) :
    (hasResource s p = false ∧
      getResource s p = .error (.resourceError (notFoundMsg p))) ∨
    (∃ e, s.map p = some e ∧ e.data = none ∧
      getResource s p = .error (.resourceError "Resource data is null")) ∨
    (∃ e d, s.map p = some e ∧ e.data = some d ∧
      getResource s p = .ok (some d)) := by
  by_cases h : hasResource s p = false
  · left
    refine ⟨h, ?_⟩
    simp only [getResource]
    rw [if_pos h]
  · right
    have hsome : (s.map p).isSome := by
      simp only [hasResource] at h
      exact Bool.of_not_eq_false h
    obtain ⟨e, he⟩ := Option.isSome_iff_exists.mp hsome
    cases hd : e.data with
    | none =>
      left
      refine ⟨e, he, hd, ?_⟩
      simp only [getResource]
      rw [if_neg h, he]
      simp [MapEntry.getData, hd]
    | some d =>
      right
      refine ⟨e, d, he, hd, ?_⟩
      simp only [getResource]
      rw [if_neg h, he]
      simp [MapEntry.getData, hd]

/-! ### Fixed-timestep loop lemmas -/

theorem MSPU_pos : (0 : ℚ) < MILLISECONDS_PER_UPDATE := by
  norm_num [MILLISECONDS_PER_UPDATE]

theorem drainLoop_lt (lag : ℚ) :
    (drainLoop lag).2 < MILLISECONDS_PER_UPDATE := by
  induction lag using drainLoop.induct with
  | case1 lag h ih =>
    rw [drainLoop, dif_pos h]
    exact ih
  | case2 lag h =>
    rw [drainLoop, dif_neg h]
    exact lt_of_not_le h

theorem drainLoop_nonneg (lag : ℚ) :
    0 ≤ lag → 0 ≤ (drainLoop lag).2 := by
  induction lag using drainLoop.induct with
  | case1 lag h ih =>
    intro _
    rw [drainLoop, dif_pos h]
    exact ih (by linarith)
  | case2 lag h =>
    intro h0
    rw [drainLoop, dif_neg h]
    exact h0

theorem drainLoop_conserve (lag : ℚ) :
    ((drainLoop lag).1.count LoopEvent.update : ℚ) * MILLISECONDS_PER_UPDATE
      + (drainLoop lag).2 = lag := by
  induction lag using drainLoop.induct with
  | case1 lag h ih =>
    rw [drainLoop, dif_pos h]
    show (((LoopEvent.updateInput :: LoopEvent.update ::
        (drainLoop (lag - MILLISECONDS_PER_UPDATE)).1).count LoopEvent.update : ℚ))
        * MILLISECONDS_PER_UPDATE
        + (drainLoop (lag - MILLISECONDS_PER_UPDATE)).2 = lag
    have hc : (LoopEvent.updateInput :: LoopEvent.update ::
        (drainLoop (lag - MILLISECONDS_PER_UPDATE)).1).count LoopEvent.update
        = (drainLoop (lag - MILLISECONDS_PER_UPDATE)).1.count LoopEvent.update
          + 1 := by
      simp [List.count_cons]
    rw [hc]
    push_cast
    linarith [ih]
  | case2 lag h =>
    rw [drainLoop, dif_neg h]
    simp

theorem drainLoop_pairs (lag : ℚ) :
    ∃ n, (drainLoop lag).1 = updatePairs n := by
  induction lag using drainLoop.induct with
  | case1 lag h ih =>
    obtain ⟨n, hn⟩ := ih
    rw [drainLoop, dif_pos h]
    exact ⟨n + 1, by simp [updatePairs, hn]⟩
  | case2 lag h =>
    rw [drainLoop, dif_neg h]
    exact ⟨0, rfl⟩

theorem updatePairs_no_draw (n : Nat) :
    (updatePairs n).count LoopEvent.draw = 0 := by
  induction n with
  | zero => rfl
  | succ n ih => simp [updatePairs, List.count_cons, ih]

theorem updatePairs_update_idx (n : Nat) :
    ∀ i, (updatePairs n).get? i = some LoopEvent.update →
      1 ≤ i ∧ (updatePairs n).get? (i - 1) = some LoopEvent.updateInput := by
  induction n with
  | zero => intro i hi; simp [updatePairs] at hi
  | succ n ih =>
    intro i hi
    match i with
    | 0 => simp [updatePairs] at hi
    | 1 => exact ⟨le_refl 1, by simp [updatePairs]⟩
    | (j + 2) =>
      simp only [updatePairs, List.get?_cons_succ] at hi
      obtain ⟨hj, hj2⟩ := ih j hi
      obtain ⟨k, rfl⟩ : ∃ k, j = k + 1 := ⟨j - 1, by omega⟩
      refine ⟨by omega, ?_⟩
      simp only [Nat.add_sub_cancel] at hj2 ⊢
      simpa [updatePairs, List.get?_cons_succ] using hj2

theorem loopStep_run (ls : LoopState) (sc : Nat) (now : ℚ) (fid : Int)
    (hsc : ls.scene = some sc) (hrun : ls.running = true) :
    loopStep ls now fid =
      (.ok (),
        { ls with
            frameId := fid,
            previousTime := now,
            lagTime := (drainLoop (ls.lagTime + (now - ls.previousTime))).2 },
        LoopEvent.scheduleFrame :: LoopEvent.draw ::
          (drainLoop (ls.lagTime + (now - ls.previousTime))).1) := by
  simp only [loopStep]
  rw [hsc]
  simp only [hrun, if_true]

/-- **C7**: in every frame callback of a running loop the events come in the
order: the next frame is scheduled first, `scene.draw()` runs exactly once
and before any `scene.update()` of that callback, and every update of the
drain loop is immediately preceded by one input poll. -/
theorem draw_before_update (ls : LoopState) (sc : Nat) (now : ℚ) (fid : Int)
    (hsc : ls.scene = some sc) (hrun : ls.running = true) :
    ((loopStep ls now fid).2.2).count LoopEvent.draw = 1 ∧
    ((loopStep ls now fid).2.2).get? 0 = some LoopEvent.scheduleFrame ∧
    ((loopStep ls now fid).2.2).get? 1 = some LoopEvent.draw ∧
    (∀ i, ((loopStep ls now fid).2.2).get? i = some LoopEvent.update →
      2 ≤ i ∧
      ((loopStep ls now fid).2.2).get? (i - 1)
        = some LoopEvent.updateInput) := by
  rw [loopStep_run ls sc now fid hsc hrun]
  obtain ⟨n, hn⟩ := drainLoop_pairs (ls.lagTime + (now - ls.previousTime))
  show (LoopEvent.scheduleFrame :: LoopEvent.draw ::
      (drainLoop (ls.lagTime + (now - ls.previousTime))).1).count
        LoopEvent.draw = 1 ∧ _
  rw [hn]
  refine ⟨?_, rfl, rfl, ?_⟩
  · simp [List.count_cons, updatePairs_no_draw]
  · intro i hi
    match i with
    | 0 => simp at hi
    | 1 => simp at hi
    | (j + 2) =>
      simp only [List.get?_cons_succ] at hi
      obtain ⟨hj, hj2⟩ := updatePairs_update_idx n j hi
      obtain ⟨k, rfl⟩ : ∃ k, j = k + 1 := ⟨j - 1, by omega⟩
      refine ⟨by omega, ?_⟩
      simp only [Nat.add_sub_cancel] at hj2 ⊢
      show (LoopEvent.scheduleFrame :: LoopEvent.draw ::
          updatePairs n).get? (k + 2) = some LoopEvent.updateInput
      simpa [List.get?_cons_succ] using hj2

/-- Witness for C7 at a concrete running state and timestamp. -/
theorem draw_before_update_witness :
    ((loopStep
        { scene := some 0, frameId := 0, running := true,
          previousTime := 0, lagTime := 0 } 20 1).2.2).count
      LoopEvent.draw = 1 ∧
    ((loopStep
        { scene := some 0, frameId := 0, running := true,
          previousTime := 0, lagTime := 0 } 20 1).2.2).get? 0
      = some LoopEvent.scheduleFrame ∧
    ((loopStep
        { scene := some 0, frameId := 0, running := true,
          previousTime := 0, lagTime := 0 } 20 1).2.2).get? 1
      = some LoopEvent.draw ∧
    (∀ i, ((loopStep
        { scene := some 0, frameId := 0, running := true,
          previousTime := 0, lagTime := 0 } 20 1).2.2).get? i
        = some LoopEvent.update →
      2 ≤ i ∧
      ((loopStep
          { scene := some 0, frameId := 0, running := true,
            previousTime := 0, lagTime := 0 } 20 1).2.2).get? (i - 1)
        = some LoopEvent.updateInput) :=
  draw_before_update
    { scene := some 0, frameId := 0, running := true,
      previousTime := 0, lagTime := 0 } 0 20 1 rfl rfl

theorem count_floor (u : ℕ) (r T : ℚ)
    (h : (u : ℚ) * MILLISECONDS_PER_UPDATE + r = T)
    (h0 : 0 ≤ r) (h1 : r < MILLISECONDS_PER_UPDATE) :
    (u : ℤ) = ⌊T / MILLISECONDS_PER_UPDATE⌋ := by
  have hpos := MSPU_pos
  symm
  rw [Int.floor_eq_iff]
  constructor
  · rw [le_div_iff₀ hpos]
    push_cast
    linarith
  · rw [div_lt_iff₀ hpos]
    push_cast
    linarith

theorem runLoop_spec :
    ∀ (times : List ℚ) (ls : LoopState) (sc : Nat),
      ls.scene = some sc → ls.running = true →
      0 ≤ ls.lagTime → ls.lagTime < MILLISECONDS_PER_UPDATE →
      List.Chain (· ≤ ·) ls.previousTime times →
      (runLoop ls times).1 = .ok () ∧
      (runLoop ls times).2.1.scene = some sc ∧
      (runLoop ls times).2.1.running = true ∧
      (runLoop ls times).2.1.previousTime = times.getLastD ls.previousTime ∧
      0 ≤ (runLoop ls times).2.1.lagTime ∧
      (runLoop ls times).2.1.lagTime < MILLISECONDS_PER_UPDATE ∧
      ((runLoop ls times).2.2.count LoopEvent.update : ℚ)
          * MILLISECONDS_PER_UPDATE + (runLoop ls times).2.1.lagTime
        = ls.lagTime + (times.getLastD ls.previousTime - ls.previousTime) := by
  intro times
  induction times with
  | nil =>
    intro ls sc h1 h2 h3 h4 _
    exact ⟨rfl, h1, h2, rfl, h3, h4, by simp [runLoop]⟩
  | cons t ts ih =>
    intro ls sc h1 h2 h3 h4 hch
    obtain ⟨hpt, hch2⟩ := List.chain_cons.mp hch
    have hstep := loopStep_run ls sc t 0 h1 h2
    have hlag1 : (0 : ℚ) ≤ ls.lagTime + (t - ls.previousTime) := by linarith
    have hnn := drainLoop_nonneg (ls.lagTime + (t - ls.previousTime)) hlag1
    have hlt := drainLoop_lt (ls.lagTime + (t - ls.previousTime))
    have hcons := drainLoop_conserve (ls.lagTime + (t - ls.previousTime))
    have hrec := ih
      { ls with
          frameId := 0,
          previousTime := t,
          lagTime := (drainLoop (ls.lagTime + (t - ls.previousTime))).2 }
      sc h1 h2 hnn hlt (by simpa using hch2)
    obtain ⟨r1, r2, r3, r4, r5, r6, r7⟩ := hrec
    simp only at r4 r7
    simp only [runLoop, hstep]
    refine ⟨r1, r2, r3, ?_, r5, r6, ?_⟩
    · rw [r4, List.getLastD_cons]
    · rw [List.getLastD_cons]
      simp only [List.count_append]
      have hc2 : List.count LoopEvent.update (LoopEvent.scheduleFrame ::
          LoopEvent.draw :: (drainLoop (ls.lagTime + (t - ls.previousTime))).1)
          = List.count LoopEvent.update
            (drainLoop (ls.lagTime + (t - ls.previousTime))).1 := by
        simp [List.count_cons]
      rw [hc2]
      push_cast
      push_cast at r7 hcons
      linarith [r7, hcons]

/-- **C3**: with a simulated clock delivering any monotone sequence of frame
timestamps, the number of `scene.update()` calls since the loop started
equals `floor(T / MILLISECONDS_PER_UPDATE)` where `T` is the total elapsed
wall time, regardless of how many frame callbacks (draws) occurred; and the
accumulator invariant `lagTime = T - updates * step`, `0 ≤ lagTime < step`,
holds after every frame step. -/
theorem fixed_step_determinism (sc : Nat) (fid : Int) (t0 : ℚ)
    (times : List ℚ) (hch : List.Chain (· ≤ ·) t0 times) :
    (runLoop
      { scene := some sc, frameId := fid, running := true,
        previousTime := t0, lagTime := 0 } times).1 = .ok () ∧
    ((runLoop
      { scene := some sc, frameId := fid, running := true,
        previousTime := t0, lagTime := 0 } times).2.2.count
        LoopEvent.update : ℤ)
      = ⌊(times.getLastD t0 - t0) / MILLISECONDS_PER_UPDATE⌋ ∧
    (runLoop
      { scene := some sc, frameId := fid, running := true,
        previousTime := t0, lagTime := 0 } times).2.1.lagTime
      = (times.getLastD t0 - t0)
        - ((runLoop
            { scene := some sc, frameId := fid, running := true,
              previousTime := t0, lagTime := 0 } times).2.2.count
              LoopEvent.update : ℚ) * MILLISECONDS_PER_UPDATE ∧
    0 ≤ (runLoop
      { scene := some sc, frameId := fid, running := true,
        previousTime := t0, lagTime := 0 } times).2.1.lagTime ∧
    (runLoop
      { scene := some sc, frameId := fid, running := true,
        previousTime := t0, lagTime := 0 } times).2.1.lagTime
      < MILLISECONDS_PER_UPDATE := by
  have h := runLoop_spec times
    { scene := some sc, frameId := fid, running := true,
      previousTime := t0, lagTime := 0 } sc rfl rfl le_rfl MSPU_pos hch
  obtain ⟨r1, _, _, _, r5, r6, r7⟩ := h
  simp only at r7
  refine ⟨r1, ?_, by linarith, r5, r6⟩
  exact count_floor _ _ _ (by linarith) r5 r6

/-- Witness for C3 with two frames at 20 ms and 40 ms: both hypotheses hold
at this concrete input and the update count is exactly
`floor(40 / (1000 / 60)) = 2`. -/
theorem fixed_step_determinism_witness :
    (runLoop
      { scene := some 0, frameId := 0, running := true,
        previousTime := 0, lagTime := 0 } [20, 40]).1 = .ok () ∧
    ((runLoop
      { scene := some 0, frameId := 0, running := true,
        previousTime := 0, lagTime := 0 } [20, 40]).2.2.count
        LoopEvent.update : ℤ)
      = ⌊(([20, 40] : List ℚ).getLastD 0 - 0) / MILLISECONDS_PER_UPDATE⌋ ∧
    (runLoop
      { scene := some 0, frameId := 0, running := true,
        previousTime := 0, lagTime := 0 } [20, 40]).2.1.lagTime
      = (([20, 40] : List ℚ).getLastD 0 - 0)
        - ((runLoop
            { scene := some 0, frameId := 0, running := true,
              previousTime := 0, lagTime := 0 } [20, 40]).2.2.count
              LoopEvent.update : ℚ) * MILLISECONDS_PER_UPDATE ∧
    0 ≤ (runLoop
      { scene := some 0, frameId := 0, running := true,
        previousTime := 0, lagTime := 0 } [20, 40]).2.1.lagTime ∧
    (runLoop
      { scene := some 0, frameId := 0, running := true,
        previousTime := 0, lagTime := 0 } [20, 40]).2.1.lagTime
      < MILLISECONDS_PER_UPDATE :=
  fixed_step_determinism 0 0 0 [20, 40]
    (by norm_num [List.chain_cons])

/-- **C4**: a single frame callback arriving with 500 ms of accumulated
elapsed time executes exactly 29 `scene.update()` calls in its drain loop —
`MILLISECONDS_PER_UPDATE` is the 64-bit floating-point value of `1000/60`,
slightly above `50/3`, so `floor(500 / step) = 29`. -/
theorem stalled_frame_29_updates :
    ((loopStep
        { scene := some 0, frameId := -1, running := true,
          previousTime := 0, lagTime := 0 } 500 0).2.2).count
      LoopEvent.update = 29 := by
  rw [loopStep_run
    { scene := some 0, frameId := -1, running := true,
      previousTime := 0, lagTime := 0 } 0 500 0 rfl rfl]
  have h500 : ((0 : ℚ) + (500 - 0)) = 500 := by norm_num
  have hfl := count_floor
    ((drainLoop ((0 : ℚ) + (500 - 0))).1.count LoopEvent.update)
    ((drainLoop ((0 : ℚ) + (500 - 0))).2) ((0 : ℚ) + (500 - 0))
    (drainLoop_conserve _) (drainLoop_nonneg _ (by norm_num)) (drainLoop_lt _)
  rw [h500] at hfl
  have h29 : ⌊(500 : ℚ) / MILLISECONDS_PER_UPDATE⌋ = 29 := by
    rw [Int.floor_eq_iff]
    constructor
    · rw [le_div_iff₀ MSPU_pos]
      norm_num [MILLISECONDS_PER_UPDATE]
    · rw [div_lt_iff₀ MSPU_pos]
      norm_num [MILLISECONDS_PER_UPDATE]
  rw [h29] at hfl
  have hcnt : (drainLoop ((500 : ℚ))).1.count LoopEvent.update
      = 29 := by exact_mod_cast hfl
  show (LoopEvent.scheduleFrame :: LoopEvent.draw ::
      (drainLoop ((0 : ℚ) + (500 - 0))).1).count LoopEvent.update = 29
  simp only [h500]
  simp [List.count_cons, hcnt]

/-- **C8**: calling `startLoop` while the loop is already running fails with
a `LoopError` and performs no state change: the loop state and the resource
map are returned untouched, and the call is rejected, not queued. -/
theorem start_while_running {α : Type} (ls : LoopState) (scene : Nat)
    (rs : ResourceMapState α)
    (sceneLoad : ResourceMapState α → ResourceMapState α)
    (env : FetchEnv α) (now : ℚ) (fid : Int) (h : ls.running = true) :
    startLoop ls scene rs sceneLoad env now fid
      = (.error (.loopError "Scene already running"), ls, rs) := by
  simp [startLoop, h]

/-- Witness for C8 at a concrete running loop state. -/
theorem start_while_running_witness :
    startLoop
      { scene := some 0, frameId := 0, running := true,
        previousTime := 0, lagTime := 0 } 1 (ResourceMapState.init Nat) id
      (fun _ => Except.ok 1) 0 0
      = (.error (.loopError "Scene already running"),
          { scene := some 0, frameId := 0, running := true,
            previousTime := 0, lagTime := 0 },
          ResourceMapState.init Nat) :=
  start_while_running
    { scene := some 0, frameId := 0, running := true,
      previousTime := 0, lagTime := 0 } 1 (ResourceMapState.init Nat) id
    (fun _ => Except.ok 1) 0 0 rfl

/-- **C9**: the invariant `running = true → scene ≠ none` is preserved by
every loop operation — `startLoop` (which attaches the scene before setting
the running flag, so even a barrier failure leaves the invariant intact),
`loopStep`, `stopLoop`, and `cleanupLoop` (which clears the running flag
before detaching the scene). -/
theorem loop_invariant_preserved {α : Type} (ls : LoopState) (scene : Nat)
    (rs : ResourceMapState α)
    (sceneLoad : ResourceMapState α → ResourceMapState α)
    (env : FetchEnv α) (now tstep : ℚ) (fid fid2 : Int)
    (h : LoopInv ls) :
    LoopInv (startLoop ls scene rs sceneLoad env now fid).2.1 ∧
    LoopInv (loopStep ls tstep fid2).2.1 ∧
    LoopInv (stopLoop ls) ∧
    LoopInv (cleanupLoop ls).2 := by
  refine ⟨?_, ?_, ?_, ?_⟩
  · simp only [startLoop]
    split
    · exact h
    · split
      · intro _; simp
      · intro _; simp
  · simp only [loopStep]
    split
    · exact h
    · rename_i sc hsc
      split
      · intro _
        simp [hsc]
      · exact h
  · intro hrun
    exact absurd hrun (by simp [stopLoop])
  · simp only [cleanupLoop]
    split
    · exact h
    · intro hrun
      exact absurd hrun (by simp [stopLoop])

/-- Witness for C9 at a concrete idle loop state. -/
theorem loop_invariant_preserved_witness :
    LoopInv (startLoop
      { scene := none, frameId := 0, running := false,
        previousTime := 0, lagTime := 0 } 1 (ResourceMapState.init Nat) id
      (fun _ => Except.ok 1) 0 0).2.1 ∧
    LoopInv (loopStep
      { scene := none, frameId := 0, running := false,
        previousTime := 0, lagTime := 0 } 5 2).2.1 ∧
    LoopInv (stopLoop
      { scene := none, frameId := 0, running := false,
        previousTime := 0, lagTime := 0 }) ∧
    LoopInv (cleanupLoop
      { scene := none, frameId := 0, running := false,
        previousTime := 0, lagTime := 0 }).2 :=
  loop_invariant_preserved
    { scene := none, frameId := 0, running := false,
      previousTime := 0, lagTime := 0 } 1 (ResourceMapState.init Nat) id
    (fun _ => Except.ok 1) 0 5 0 2 (by simp [LoopInv])

end Gummi
